import Mathlib

/-!
# ghacktoberfest: reconciliation of the hacktoberfest topic

A shallow embedding of `main.go`.  The program keeps a record (`Configuration`) that maps a
repository full name to the boolean "should carry the topic", lists the repositories of a user
through the GitHub client and, for each of them, decides with `getRepositoryStatus` whether the
topic has to be added, removed, or the repository adopted into the record.

Conventions of the embedding:

* Go `int` statuses are `Int`; Go strings are `String`; a slice is a `List`.
* A Go `map[string]bool` is a `GoMap`: either the nil map, or an allocated map.  Reading a nil map
  yields the zero value, assigning to it panics.
* A function that can panic returns `Except String _`, the error being the panic value.
* The two commands are run against an `Env` that fixes what the operating system and the remote
  answer; a run yields the sequence of effects (`Event`) it performed and how it ended.
-/

namespace Ghacktoberfest

/-! ## Constants -/

/-- Constant CONFIG_FILE, the path of the record file. -/
def CONFIG_FILE : String := "config.yaml"

/-- Constant TAG, the marker topic. -/
def TAG : String := "hacktoberfest"

/-- Constant USER, the account whose repositories are listed. -/
def USER : String := "jdecool"

/-- Constant STATUT_TOPIC_SHOULD_BE_ADDED. -/
def STATUT_TOPIC_SHOULD_BE_ADDED : Int := 1

/-- Constant STATUT_TOPIC_SHOULD_BE_REMOVED. -/
def STATUT_TOPIC_SHOULD_BE_REMOVED : Int := 2

/-- Constant STATUT_UNKNOW_REPOSITORY. -/
def STATUT_UNKNOW_REPOSITORY : Int := 3

/-! ## Go maps -/

/-- Binding of a key in a list of key/value pairs: the first pair carrying the key. -/
def lookupKV : List (String × Bool) → String → Option Bool
  | [], _ => none
  | (k', v) :: kvs, k => if k' = k then some v else lookupKV kvs k

/-- A Go value of type map[string]bool: the nil map or an allocated map. -/
inductive GoMap where
  | nil : GoMap
  | mk (kvs : List (String × Bool)) : GoMap
  deriving DecidableEq, Repr

/-- The binding of a key, if the key is present.  The nil map has no key. -/
def GoMap.lookup : GoMap → String → Option Bool
  | .nil, _ => none
  | .mk kvs, k => lookupKV kvs k

/-- The Go index expression `v, ok := m[k]`: value (zero value when absent) and presence. -/
def GoMap.index (m : GoMap) (k : String) : Bool × Bool :=
  match m.lookup k with
  | some v => (v, true)
  | none => (false, false)

/-- The Go statement `m[k] = v`; it panics on the nil map. -/
def GoMap.assign : GoMap → String → Bool → Except String GoMap
  | .nil, _, _ => .error "assignment to entry in nil map"
  | .mk kvs, k, v => .ok (.mk ((k, v) :: kvs.filter (fun p => decide (p.1 ≠ k))))

/-! ## Data model -/

/-- The struct Configuration. -/
structure Configuration where
  AccessToken : String
  Repositories : GoMap
  deriving DecidableEq, Repr

/-- The fields of a listed github.Repository that the program reads: FullName, Owner.Login, Name
and Topics (the pointers are taken to be set, as they are for a listed repository). -/
structure Repository where
  FullName : String
  OwnerLogin : String
  Name : String
  Topics : List String
  deriving DecidableEq, Repr

/-- The arguments of one call of client.Repositories.ReplaceAllTopics. -/
structure Call where
  owner : String
  repo : String
  topics : List String
  deriving DecidableEq, Repr

/-! ## Pure functions -/

/-- The function contains: linear search for x in a. -/
def contains : List String → String → Bool
  | [], _ => false
  | v :: a, x => if v = x then true else contains a x

/-- The method Configuration.getRepositoryStatus. -/
def getRepositoryStatus (c : Configuration) (r : String) (topics : List String) : Int :=
  let e := (c.Repositories.index r).2
  if !e then
    STATUT_UNKNOW_REPOSITORY
  else
    let hasTag := contains topics TAG
    let shouldHaveTag := (c.Repositories.index r).1
    if !hasTag && shouldHaveTag then
      STATUT_TOPIC_SHOULD_BE_ADDED
    else if hasTag && !shouldHaveTag then
      STATUT_TOPIC_SHOULD_BE_REMOVED
    else
      0

/-- The inner loop of the removal case: newTopics accumulates, in order, the topics that differ
from TAG. -/
def removeTagLoop : List String → List String → List String
  | newTopics, [] => newTopics
  | newTopics, t :: rest =>
    if t ≠ TAG then removeTagLoop (newTopics ++ [t]) rest else removeTagLoop newTopics rest

/-! ## The reconciliation loop of the update command -/

/-- One iteration of the loop of rootCmd.Run: the calls of ReplaceAllTopics it issues and the
record afterwards, or the panic that ends it. -/
def updateStep (c : Configuration) (repo : Repository) : List Call × Except String Configuration :=
  let name := repo.FullName
  let status := getRepositoryStatus c name repo.Topics
  if status = STATUT_TOPIC_SHOULD_BE_ADDED then
    ([⟨repo.OwnerLogin, repo.Name, repo.Topics ++ [TAG]⟩], .ok c)
  else if status = STATUT_TOPIC_SHOULD_BE_REMOVED then
    ([⟨repo.OwnerLogin, repo.Name, removeTagLoop [] repo.Topics⟩], .ok c)
  else if status = STATUT_UNKNOW_REPOSITORY then
    match c.Repositories.assign repo.FullName (contains repo.Topics TAG) with
    | .error e => ([], .error e)
    | .ok m => ([], .ok { c with Repositories := m })
  else
    ([], .ok c)

/-- The loop `for _, repo := range repos` of rootCmd.Run: all calls issued, in order, and the
final record, or the panic that stopped the loop. -/
def updateLoop (c : Configuration) : List Repository → List Call × Except String Configuration
  | [] => ([], .ok c)
  | repo :: rest =>
    match updateStep c repo with
    | (calls, .error e) => (calls, .error e)
    | (calls, .ok c1) =>
      let r := updateLoop c1 rest
      (calls ++ r.1, r.2)

/-- The loop `for _, repo := range repos` of initCmd.Run. -/
def initLoop (c : Configuration) : List Repository → Except String Configuration
  | [] => .ok c
  | repo :: rest =>
    match c.Repositories.assign repo.FullName (contains repo.Topics TAG) with
    | .error e => .error e
    | .ok m => initLoop { c with Repositories := m } rest

/-! ## Environment, effects and the two commands -/

/-- What the file system holds at a path, as far as os.Stat and ioutil.ReadFile followed by
yaml.Unmarshal can tell. -/
inductive FileState where
  /-- os.Stat fails with an error for which os.IsNotExist holds. -/
  | notExist : FileState
  /-- os.Stat fails with another error (info is nil); readError is the error ioutil.ReadFile
  returns for such a path. -/
  | statFailure (readError : String) : FileState
  /-- The path is a directory. -/
  | directory : FileState
  /-- A regular file; content is what reading and unmarshalling it gives. -/
  | regular (content : Except String Configuration) : FileState

/-- The answers of the outside world during one run of a command. -/
structure Env where
  /-- State of each path of the file system. -/
  fs : String → FileState
  /-- Result of client.Repositories.List for a user. -/
  list : String → Except String (List Repository)
  /-- Error of ioutil.WriteFile, if it fails. -/
  writeError : Option String

/-- The effects a command performs. -/
inductive Event where
  | readFile (file : String) : Event
  | list (user : String) : Event
  | replaceAllTopics (call : Call) : Event
  | writeFile (file : String) (c : Configuration) : Event
  deriving DecidableEq, Repr

/-- A finished run: the effects performed, in order, and the panic value if it panicked. -/
structure Run where
  events : List Event
  result : Except String Unit

/-- The function fileExists. -/
def fileExists (fs : String → FileState) (file : String) : Except String Bool :=
  match fs file with
  | .notExist => .ok false
  | .statFailure _ =>
    .error "runtime error: invalid memory address or nil pointer dereference"
  | .directory => .ok false
  | .regular _ => .ok true

/-- The function loadConfiguration. -/
def loadConfiguration (fs : String → FileState) : Except String Configuration :=
  match fs CONFIG_FILE with
  | .regular content => content
  | .notExist => .error "open config.yaml: no such file or directory"
  | .statFailure readError => .error readError
  | .directory => .error "read config.yaml: is a directory"

/-- The function saveConfiguration. -/
def saveConfiguration (env : Env) (_c : Configuration) : Except String Unit :=
  match env.writeError with
  | some e => .error e
  | none => .ok ()

/-- The body Run of rootCmd, the update command. -/
def rootCmdRun (env : Env) : Run :=
  match fileExists env.fs CONFIG_FILE with
  | .error e => ⟨[], .error e⟩
  | .ok false => ⟨[], .error "Configuration file not exists. Run init command before."⟩
  | .ok true =>
    match loadConfiguration env.fs with
    | .error e => ⟨[.readFile CONFIG_FILE], .error e⟩
    | .ok c =>
      match env.list USER with
      | .error e => ⟨[.readFile CONFIG_FILE, .list USER], .error e⟩
      | .ok repos =>
        match updateLoop c repos with
        | (calls, .error e) =>
          ⟨[.readFile CONFIG_FILE, .list USER] ++ calls.map .replaceAllTopics, .error e⟩
        | (calls, .ok c1) =>
          ⟨[.readFile CONFIG_FILE, .list USER] ++ calls.map .replaceAllTopics
              ++ [.writeFile CONFIG_FILE c1],
            saveConfiguration env c1⟩

/-- The body Run of initCmd, the init command. -/
def initCmdRun (env : Env) : Run :=
  match fileExists env.fs CONFIG_FILE with
  | .error e => ⟨[], .error e⟩
  | .ok true =>
    ⟨[], .error "Configuration file exists. Please remove it before using this command."⟩
  | .ok false =>
    let c : Configuration :=
      match loadConfiguration env.fs with
      | .error _ => { AccessToken := "", Repositories := .mk [] }
      | .ok c => c
    match env.list USER with
    | .error e => ⟨[.readFile CONFIG_FILE, .list USER], .error e⟩
    | .ok repos =>
      match initLoop c repos with
      | .error e => ⟨[.readFile CONFIG_FILE, .list USER], .error e⟩
      | .ok c1 =>
        ⟨[.readFile CONFIG_FILE, .list USER, .writeFile CONFIG_FILE c1],
          saveConfiguration env c1⟩

/-! ## The remote, for runs that follow one another -/

/-- Effect on the remote of one call of ReplaceAllTopics that succeeds.  The client sends the
request to the path `repos/owner/repo/topics`, so the repository whose full name is owner/repo
gets the topics of the call; a call that names no repository of the remote changes nothing. -/
def replaceAllTopics (remote : List Repository) (call : Call) : List Repository :=
  remote.map fun r =>
    if r.FullName = call.owner ++ "/" ++ call.repo then { r with Topics := call.topics } else r

/-- Effect of a sequence of calls of ReplaceAllTopics, each taking effect. -/
def applyCalls (remote : List Repository) (calls : List Call) : List Repository :=
  calls.foldl replaceAllTopics remote

/-! ## Concrete environments used as examples -/

/-- A remote that holds org/a (topics x, hacktoberfest) and org/b (topic y). -/
def freshRemote : List Repository :=
  [⟨"org/a", "org", "a", ["x", "hacktoberfest"]⟩, ⟨"org/b", "org", "b", ["y"]⟩]

/-- An environment without record file, whose remote is freshRemote. -/
def freshEnv : Env where
  fs := fun _ => .notExist
  list := fun _ => .ok freshRemote
  writeError := none

/-- An environment whose record file holds an access token and no Repositories mapping, and whose
remote lists the single repository org/a, without topics. -/
def tokenOnlyEnv : Env where
  fs := fun _ => .regular (.ok ⟨"token", .nil⟩)
  list := fun _ => .ok [⟨"org/a", "org", "a", []⟩]
  writeError := none

/-- A record that asks for the marker on org/a and not on org/b. -/
def driftedRecord : Configuration :=
  ⟨"", .mk [("org/a", true), ("org/b", false)]⟩

/-- A remote that disagrees with driftedRecord on org/a and org/b and holds org/c, which the
record does not know. -/
def driftedRemote : List Repository :=
  [⟨"org/a", "org", "a", ["x"]⟩, ⟨"org/b", "org", "b", ["hacktoberfest", "y"]⟩,
    ⟨"org/c", "org", "c", ["z"]⟩]

/-- The calls the update command issues for driftedRecord and driftedRemote. -/
def driftedCalls : List Call :=
  [⟨"org", "a", ["x", "hacktoberfest"]⟩, ⟨"org", "b", ["y"]⟩]

/-- The record the update command writes for driftedRecord and driftedRemote. -/
def settledRecord : Configuration :=
  ⟨"", .mk [("org/c", false), ("org/a", true), ("org/b", false)]⟩

/-- The environment of a first run of the update command. -/
def driftedEnv : Env where
  fs := fun _ => .regular (.ok driftedRecord)
  list := fun _ => .ok driftedRemote
  writeError := none

/-- The environment of the run that follows: the record file holds the record written by the first
run and the remote is the one the calls of the first run left. -/
def settledEnv : Env where
  fs := fun _ => .regular (.ok settledRecord)
  list := fun _ => .ok (applyCalls driftedRemote driftedCalls)
  writeError := none

/-! ## Facts about the building blocks -/

theorem contains_iff (a : List String) (x : String) : contains a x = true ↔ x ∈ a := by
  induction a with
  | nil => simp [contains]
  | cons v a ih =>
    by_cases h : v = x
    · simp [contains, h]
    · simp [contains, h, ih, Ne.symm h]

theorem contains_eq_false_iff (a : List String) (x : String) : contains a x = false ↔ x ∉ a := by
  rw [← contains_iff]; simp

theorem index_snd (m : GoMap) (k : String) : (m.index k).2 = (m.lookup k).isSome := by
  unfold GoMap.index; cases m.lookup k <;> rfl

theorem index_fst (m : GoMap) (k : String) : (m.index k).1 = (m.lookup k).getD false := by
  unfold GoMap.index; cases m.lookup k <;> rfl

/-- The status in terms of the binding of the name and of the presence of the marker. -/
theorem getRepositoryStatus_eq (c : Configuration) (r : String) (topics : List String) :
    getRepositoryStatus c r topics =
      match c.Repositories.lookup r, contains topics TAG with
      | none, _ => 3
      | some true, false => 1
      | some false, true => 2
      | some true, true => 0
      | some false, false => 0 := by
  unfold getRepositoryStatus
  simp only [index_snd, index_fst]
  cases h : c.Repositories.lookup r with
  | none => simp [STATUT_UNKNOW_REPOSITORY]
  | some v =>
    cases v <;> cases contains topics TAG <;>
      simp [STATUT_TOPIC_SHOULD_BE_ADDED, STATUT_TOPIC_SHOULD_BE_REMOVED]

theorem removeTagLoop_eq (newTopics topics : List String) :
    removeTagLoop newTopics topics = newTopics ++ topics.filter (fun t => decide (t ≠ TAG)) := by
  induction topics generalizing newTopics with
  | nil => simp [removeTagLoop]
  | cons t rest ih =>
    by_cases h : t = TAG
    · simp [removeTagLoop, h, ih]
    · simp [removeTagLoop, h, ih]

/-- The loop over a concatenation: the second part starts from the record the first part left,
unless the first part panicked. -/
theorem updateLoop_append (c : Configuration) (pre post : List Repository) :
    updateLoop c (pre ++ post) =
      match updateLoop c pre with
      | (calls, .error e) => (calls, .error e)
      | (calls, .ok c1) => (calls ++ (updateLoop c1 post).1, (updateLoop c1 post).2) := by
  induction pre generalizing c with
  | nil => simp [updateLoop]
  | cons repo rest ih =>
    simp only [List.cons_append, updateLoop]
    rcases hs : updateStep c repo with ⟨calls, _ | c1⟩
    · simp
    · have h := ih c1
      rcases hr : updateLoop c1 rest with ⟨calls2, _ | c2⟩
      · simp [h, hr]
      · simp [h, hr]

theorem lookupKV_filter_ne (kvs : List (String × Bool)) (k k' : String) (h : k ≠ k') :
    lookupKV (kvs.filter (fun p => decide (p.1 ≠ k))) k' = lookupKV kvs k' := by
  induction kvs with
  | nil => rfl
  | cons p kvs ih =>
    obtain ⟨a, b⟩ := p
    by_cases ha : a = k
    · subst ha
      rw [List.filter_cons_of_neg (by simp), ih]
      simp [lookupKV, h]
    · rw [List.filter_cons_of_pos (by simpa using ha)]
      by_cases ha' : a = k'
      · simp [lookupKV, ha']
      · simp only [lookupKV, ha', if_false]
        exact ih

/-- In a list with pairwise distinct full names, the full name determines the snapshot. -/
theorem eq_of_fullName_eq (repos : List Repository)
    (hpw : repos.Pairwise (fun a b => a.FullName ≠ b.FullName)) (r s : Repository)
    (hr : r ∈ repos) (hs : s ∈ repos) (h : r.FullName = s.FullName) : r = s := by
  induction repos with
  | nil => simp at hr
  | cons x rest ih =>
    rw [List.pairwise_cons] at hpw
    rcases List.mem_cons.1 hr with hrx | hr'
    · rcases List.mem_cons.1 hs with hsx | hs'
      · rw [hrx, hsx]
      · exact absurd (hrx ▸ h) (hpw.1 s hs')
    · rcases List.mem_cons.1 hs with hsx | hs'
      · exact absurd (hsx ▸ h).symm (hpw.1 r hr')
      · exact ih hpw.2 hr' hs'

/-- Reading a map after an assignment. -/
theorem lookup_assign (m m' : GoMap) (k : String) (v : Bool) (h : m.assign k v = .ok m')
    (k' : String) : m'.lookup k' = if k = k' then some v else m.lookup k' := by
  cases m with
  | nil => simp [GoMap.assign] at h
  | mk kvs =>
    simp only [GoMap.assign, Except.ok.injEq] at h
    subst h
    by_cases hk : k = k'
    · simp [GoMap.lookup, lookupKV, hk]
    · simp only [GoMap.lookup, lookupKV, hk, if_false]
      exact lookupKV_filter_ne kvs k k' hk

theorem assign_mk (kvs : List (String × Bool)) (k : String) (v : Bool) :
    ∃ kvs', (GoMap.mk kvs).assign k v = .ok (.mk kvs') :=
  ⟨_, rfl⟩

/-- The loop of the init command on an allocated map: it ends, keeps the access token, and binds
each name to the marker state of the last listed snapshot carrying it. -/
theorem initLoop_mk (repos : List Repository) (token : String) (kvs : List (String × Bool)) :
    ∃ kvs1, initLoop ⟨token, .mk kvs⟩ repos = .ok ⟨token, .mk kvs1⟩ ∧
      ∀ k, (GoMap.mk kvs1).lookup k =
        ((repos.reverse.find? (fun s => decide (s.FullName = k))).map
          (fun s => contains s.Topics TAG)).or ((GoMap.mk kvs).lookup k) := by
  induction repos generalizing kvs with
  | nil => exact ⟨kvs, rfl, fun k => by simp⟩
  | cons repo rest ih =>
    obtain ⟨kvs', hk⟩ := assign_mk kvs repo.FullName (contains repo.Topics TAG)
    obtain ⟨kvs1, hloop, hlook⟩ := ih kvs'
    refine ⟨kvs1, by simp [initLoop, hk, hloop], fun k => ?_⟩
    rw [hlook k, lookup_assign _ _ _ _ hk k]
    simp only [List.reverse_cons, List.find?_append]
    cases rest.reverse.find? (fun s => decide (s.FullName = k)) with
    | some x => simp
    | none =>
      by_cases hn : repo.FullName = k
      · simp [hn]
      · simp [hn]

/-- A snapshot classified STATUT_TOPIC_SHOULD_BE_ADDED does not carry the marker. -/
theorem not_mem_of_status_added (c : Configuration) (r : String) (topics : List String)
    (h : getRepositoryStatus c r topics = STATUT_TOPIC_SHOULD_BE_ADDED) : TAG ∉ topics := by
  rw [getRepositoryStatus_eq] at h
  rw [← contains_eq_false_iff]
  cases hl : c.Repositories.lookup r with
  | none => simp [hl, STATUT_TOPIC_SHOULD_BE_ADDED] at h
  | some v =>
    cases v <;> cases hc : contains topics TAG <;>
      simp [hl, hc, STATUT_TOPIC_SHOULD_BE_ADDED] at h ⊢

/-! ## Facts about the update loop -/

/-- The status only depends on the binding of the name. -/
theorem getRepositoryStatus_congr (c c' : Configuration) (r : String) (topics : List String)
    (h : c.Repositories.lookup r = c'.Repositories.lookup r) :
    getRepositoryStatus c r topics = getRepositoryStatus c' r topics := by
  rw [getRepositoryStatus_eq, getRepositoryStatus_eq, h]

/-- One iteration of the update loop, by cases on the binding of the name and on the presence of
the marker. -/
theorem updateStep_eq (c : Configuration) (repo : Repository) :
    updateStep c repo =
      match c.Repositories.lookup repo.FullName, contains repo.Topics TAG with
      | none, b =>
        match c.Repositories.assign repo.FullName b with
        | .error e => ([], .error e)
        | .ok m => ([], .ok { c with Repositories := m })
      | some true, false => ([⟨repo.OwnerLogin, repo.Name, repo.Topics ++ [TAG]⟩], .ok c)
      | some false, true =>
        ([⟨repo.OwnerLogin, repo.Name, repo.Topics.filter (fun t => decide (t ≠ TAG))⟩], .ok c)
      | some true, true => ([], .ok c)
      | some false, false => ([], .ok c) := by
  unfold updateStep
  simp only [getRepositoryStatus_eq, removeTagLoop_eq, List.nil_append]
  cases c.Repositories.lookup repo.FullName with
  | none =>
    simp [STATUT_TOPIC_SHOULD_BE_ADDED, STATUT_TOPIC_SHOULD_BE_REMOVED, STATUT_UNKNOW_REPOSITORY]
  | some v =>
    cases v <;> cases contains repo.Topics TAG <;>
      simp [STATUT_TOPIC_SHOULD_BE_ADDED, STATUT_TOPIC_SHOULD_BE_REMOVED,
        STATUT_UNKNOW_REPOSITORY]

/-- An iteration that does not panic keeps the access token, adopts the snapshot when its name
is not a key, and changes no other binding. -/
theorem updateStep_ok (c c1 : Configuration) (repo : Repository) (calls : List Call)
    (h : updateStep c repo = (calls, .ok c1)) :
    c1.AccessToken = c.AccessToken ∧
      (∃ kvs, c1.Repositories = .mk kvs) ∧
      ∀ k, c1.Repositories.lookup k =
        (c.Repositories.lookup k).or
          (if repo.FullName = k then some (contains repo.Topics TAG) else none) := by
  rw [updateStep_eq] at h
  have hsame : c1 = c →
      c.Repositories.lookup repo.FullName ≠ none →
      c1.AccessToken = c.AccessToken ∧
      (∃ kvs, c1.Repositories = .mk kvs) ∧
      ∀ k, c1.Repositories.lookup k =
        (c.Repositories.lookup k).or
          (if repo.FullName = k then some (contains repo.Topics TAG) else none) := by
    intro hc hne
    subst hc
    refine ⟨rfl, ?_, fun k => ?_⟩
    · cases hm : c1.Repositories with
      | nil => simp [hm, GoMap.lookup] at hne
      | mk kvs => exact ⟨kvs, rfl⟩
    · by_cases hk : repo.FullName = k
      · subst hk
        cases hl : c1.Repositories.lookup repo.FullName with
        | none => exact absurd hl hne
        | some v => simp
      · simp [hk]
  cases hl : c.Repositories.lookup repo.FullName with
  | none =>
    rw [hl] at h
    simp only at h
    cases ha : c.Repositories.assign repo.FullName (contains repo.Topics TAG) with
    | error e => simp [ha] at h
    | ok m =>
      simp only [ha, Prod.mk.injEq, Except.ok.injEq] at h
      obtain ⟨-, hc⟩ := h
      subst hc
      refine ⟨rfl, ?_, fun k => ?_⟩
      · cases hm : c.Repositories with
        | nil => simp [hm, GoMap.assign] at ha
        | mk kvs =>
          obtain ⟨kvs', hk⟩ := assign_mk kvs repo.FullName (contains repo.Topics TAG)
          rw [hm, hk] at ha
          exact ⟨kvs', (Except.ok.inj ha).symm⟩
      · rw [lookup_assign _ _ _ _ ha k]
        by_cases hk : repo.FullName = k
        · subst hk
          simp [hl]
        · simp [hk]
  | some v =>
    rw [hl] at h
    apply hsame
    · cases v <;> cases hc : contains repo.Topics TAG <;> simp_all
    · simp [hl]

/-- On an allocated map an iteration never panics. -/
theorem updateStep_mk (c : Configuration) (repo : Repository) (kvs : List (String × Bool))
    (hm : c.Repositories = .mk kvs) :
    ∃ calls c1, updateStep c repo = (calls, .ok c1) := by
  rw [updateStep_eq]
  cases c.Repositories.lookup repo.FullName with
  | none =>
    obtain ⟨kvs', hk⟩ := assign_mk kvs repo.FullName (contains repo.Topics TAG)
    exact ⟨[], { c with Repositories := .mk kvs' }, by simp only [hm, hk]⟩
  | some v =>
    cases v <;> cases contains repo.Topics TAG <;> exact ⟨_, _, rfl⟩

/-- A loop that ends without panic splits into its first iteration and the loop over the rest. -/
theorem updateLoop_cons_ok (c c1 : Configuration) (repo : Repository) (rest : List Repository)
    (calls : List Call) (h : updateLoop c (repo :: rest) = (calls, .ok c1)) :
    ∃ calls0 c0 calls', updateStep c repo = (calls0, .ok c0) ∧
      updateLoop c0 rest = (calls', .ok c1) ∧ calls = calls0 ++ calls' := by
  simp only [updateLoop] at h
  rcases hs : updateStep c repo with ⟨calls0, e | c0⟩
  · simp [hs] at h
  · rcases hr : updateLoop c0 rest with ⟨calls', r⟩
    simp only [hs, hr, Prod.mk.injEq] at h
    exact ⟨calls0, c0, calls', rfl, by rw [hr, h.2], h.1.symm⟩

/-- The record after a loop that ends without panic: the access token is kept, every binding of
the initial record is kept, and a name that was not a key is bound to the marker state of the
first listed snapshot carrying it. -/
theorem updateLoop_ok (repos : List Repository) (c c1 : Configuration) (calls : List Call)
    (h : updateLoop c repos = (calls, .ok c1)) :
    c1.AccessToken = c.AccessToken ∧
      ∀ k, c1.Repositories.lookup k =
        (c.Repositories.lookup k).or
          ((repos.find? (fun s => decide (s.FullName = k))).map
            (fun s => contains s.Topics TAG)) := by
  induction repos generalizing c calls with
  | nil =>
    simp only [updateLoop, Prod.mk.injEq, Except.ok.injEq] at h
    rw [← h.2]
    exact ⟨rfl, fun k => by simp⟩
  | cons repo rest ih =>
    obtain ⟨calls0, c0, calls', hs, hr, -⟩ := updateLoop_cons_ok c c1 repo rest calls h
    obtain ⟨htok0, -, hlook0⟩ := updateStep_ok c c0 repo calls0 hs
    obtain ⟨htok, hlook⟩ := ih c0 calls' hr
    refine ⟨htok.trans htok0, fun k => ?_⟩
    rw [hlook k, hlook0 k]
    by_cases hk : repo.FullName = k
    · cases c.Repositories.lookup k <;> simp [hk]
    · cases c.Repositories.lookup k <;> simp [hk]

/-- On an allocated map the update loop never panics. -/
theorem updateLoop_mk (repos : List Repository) (c : Configuration) (kvs : List (String × Bool))
    (hm : c.Repositories = .mk kvs) :
    ∃ calls c1, updateLoop c repos = (calls, .ok c1) := by
  induction repos generalizing c kvs with
  | nil => exact ⟨[], c, rfl⟩
  | cons repo rest ih =>
    obtain ⟨calls0, c0, hs⟩ := updateStep_mk c repo kvs hm
    obtain ⟨-, ⟨kvs0, hm0⟩, -⟩ := updateStep_ok c c0 repo calls0 hs
    obtain ⟨calls', c1, hr⟩ := ih c0 kvs0 hm0
    exact ⟨calls0 ++ calls', c1, by simp [updateLoop, hs, hr]⟩

/-- Every call issued by the update loop is addressed with the owner login and the name of a
listed snapshot. -/
theorem updateLoop_call_target (repos : List Repository) (c : Configuration) (call : Call)
    (h : call ∈ (updateLoop c repos).1) :
    ∃ r ∈ repos, call.owner = r.OwnerLogin ∧ call.repo = r.Name := by
  induction repos generalizing c with
  | nil => simp [updateLoop] at h
  | cons repo rest ih =>
    have hstep : ∀ x ∈ (updateStep c repo).1, x.owner = repo.OwnerLogin ∧ x.repo = repo.Name := by
      intro x hx
      rw [updateStep_eq] at hx
      cases hl : c.Repositories.lookup repo.FullName with
      | none =>
        rw [hl] at hx
        cases ha : c.Repositories.assign repo.FullName (contains repo.Topics TAG) <;>
          simp [ha] at hx
      | some v =>
        rw [hl] at hx
        cases v <;> cases hc : contains repo.Topics TAG <;> simp [hc] at hx <;> simp [hx]
    simp only [updateLoop] at h
    rcases hs : updateStep c repo with ⟨calls0, e | c0⟩
    · rw [hs] at h hstep
      exact ⟨repo, by simp, hstep call h⟩
    · rw [hs] at h hstep
      rcases List.mem_append.1 h with h0 | h'
      · exact ⟨repo, by simp, hstep call h0⟩
      · obtain ⟨r, hr, ht⟩ := ih c0 h'
        exact ⟨r, List.mem_cons_of_mem _ hr, ht⟩

/-- A loop over snapshots that are all classified 0 issues no call and keeps the record. -/
theorem updateLoop_of_unchanged (repos : List Repository) (c : Configuration)
    (h : ∀ s ∈ repos, getRepositoryStatus c s.FullName s.Topics = 0) :
    updateLoop c repos = ([], .ok c) := by
  induction repos with
  | nil => rfl
  | cons repo rest ih =>
    have hs : updateStep c repo = ([], .ok c) := by
      simp [updateStep, h repo (by simp), STATUT_TOPIC_SHOULD_BE_ADDED,
        STATUT_TOPIC_SHOULD_BE_REMOVED, STATUT_UNKNOW_REPOSITORY]
    simp [updateLoop, hs, ih (fun s hs => h s (List.mem_cons_of_mem _ hs))]

/-! ## Facts about the remote -/

/-- A call addressed to none of the repositories changes nothing. -/
theorem replaceAllTopics_of_no_target (remote : List Repository) (call : Call)
    (h : ∀ r ∈ remote, r.FullName ≠ call.owner ++ "/" ++ call.repo) :
    replaceAllTopics remote call = remote := by
  induction remote with
  | nil => rfl
  | cons x rest ih =>
    simp only [replaceAllTopics, List.map_cons, h x (by simp), if_false]
    congr 1
    exact ih (fun r hr => h r (List.mem_cons_of_mem _ hr))

/-- Calls addressed to other repositories leave the first repository in place. -/
theorem applyCalls_cons_of_no_target (calls : List Call) (x : Repository)
    (remote : List Repository)
    (h : ∀ call ∈ calls, x.FullName ≠ call.owner ++ "/" ++ call.repo) :
    applyCalls (x :: remote) calls = x :: applyCalls remote calls := by
  induction calls generalizing remote with
  | nil => rfl
  | cons call rest ih =>
    simp only [applyCalls, List.foldl_cons]
    have hx : replaceAllTopics (x :: remote) call = x :: replaceAllTopics remote call := by
      simp only [replaceAllTopics, List.map_cons, h call (by simp), if_false]
    rw [hx]
    exact ih (replaceAllTopics remote call) (fun c hc => h c (List.mem_cons_of_mem _ hc))

theorem applyCalls_append (remote : List Repository) (calls calls' : List Call) :
    applyCalls remote (calls ++ calls') = applyCalls (applyCalls remote calls) calls' := by
  simp [applyCalls, List.foldl_append]

/-! ## Facts about a second run -/

/-- Effect on the remote of the calls of one iteration: the snapshot the iteration was run for,
at the head of the remote, gets new topics, with which the record left by the iteration classifies
it 0; the other repositories are untouched. -/
theorem updateStep_effect (c c0 : Configuration) (s : Repository) (calls0 : List Call)
    (rest : List Repository)
    (haddr : s.FullName = s.OwnerLogin ++ "/" ++ s.Name)
    (hrest : ∀ r ∈ rest, r.FullName ≠ s.FullName)
    (hs : updateStep c s = (calls0, .ok c0)) :
    ∃ topics1, applyCalls (s :: rest) calls0 = { s with Topics := topics1 } :: rest ∧
      getRepositoryStatus c0 s.FullName topics1 = 0 := by
  have hone : ∀ topics1, applyCalls (s :: rest) [⟨s.OwnerLogin, s.Name, topics1⟩] =
      { s with Topics := topics1 } :: rest := by
    intro topics1
    have hr : replaceAllTopics rest ⟨s.OwnerLogin, s.Name, topics1⟩ = rest :=
      replaceAllTopics_of_no_target rest _ (fun r hr => haddr ▸ hrest r hr)
    have hhead : replaceAllTopics (s :: rest) ⟨s.OwnerLogin, s.Name, topics1⟩ =
        { s with Topics := topics1 } :: replaceAllTopics rest ⟨s.OwnerLogin, s.Name, topics1⟩ := by
      simp only [replaceAllTopics, List.map_cons, ← haddr, if_true]
    simp only [applyCalls, List.foldl_cons, List.foldl_nil, hhead, hr]
  rw [updateStep_eq] at hs
  cases hl : c.Repositories.lookup s.FullName with
  | none =>
    rw [hl] at hs
    cases ha : c.Repositories.assign s.FullName (contains s.Topics TAG) with
    | error e => simp [ha] at hs
    | ok m =>
      simp only [ha, Prod.mk.injEq, Except.ok.injEq] at hs
      obtain ⟨hcalls, hc⟩ := hs
      subst hcalls hc
      refine ⟨s.Topics, rfl, ?_⟩
      rw [getRepositoryStatus_eq, lookup_assign _ _ _ _ ha s.FullName]
      cases contains s.Topics TAG <;> simp
  | some v =>
    rw [hl] at hs
    cases v <;> cases hc : contains s.Topics TAG <;>
      simp only [hc, Prod.mk.injEq, Except.ok.injEq] at hs <;>
      obtain ⟨hcalls, hc0⟩ := hs <;> subst hcalls hc0
    · refine ⟨s.Topics, rfl, ?_⟩
      rw [getRepositoryStatus_eq, hl, hc]
    · refine ⟨_, hone _, ?_⟩
      have hno : contains (s.Topics.filter (fun t => decide (t ≠ TAG))) TAG = false := by
        rw [contains_eq_false_iff]; simp
      rw [getRepositoryStatus_eq, hl, hno]
    · refine ⟨_, hone _, ?_⟩
      have hyes : contains (s.Topics ++ [TAG]) TAG = true := by
        rw [contains_iff]; simp
      rw [getRepositoryStatus_eq, hl, hyes]
    · refine ⟨s.Topics, rfl, ?_⟩
      rw [getRepositoryStatus_eq, hl, hc]

/-- After a run of the update loop whose calls all took effect, the record left by the run
classifies every repository of the remote 0. -/
theorem updateLoop_effect (remote : List Repository) (c c1 : Configuration) (calls : List Call)
    (hdistinct : remote.Pairwise (fun a b => a.FullName ≠ b.FullName))
    (haddr : ∀ r ∈ remote, r.FullName = r.OwnerLogin ++ "/" ++ r.Name)
    (hrun : updateLoop c remote = (calls, .ok c1)) :
    ∀ s ∈ applyCalls remote calls, getRepositoryStatus c1 s.FullName s.Topics = 0 := by
  induction remote generalizing c calls with
  | nil =>
    simp only [updateLoop, Prod.mk.injEq] at hrun
    rw [← hrun.1]
    simp [applyCalls]
  | cons x rest ih =>
    obtain ⟨calls0, c0, calls', hs, hr, hcalls⟩ := updateLoop_cons_ok c c1 x rest calls hrun
    rw [List.pairwise_cons] at hdistinct
    have hrest : ∀ r ∈ rest, r.FullName ≠ x.FullName := fun r hr => (hdistinct.1 r hr).symm
    obtain ⟨topics1, happ, hst⟩ :=
      updateStep_effect c c0 x calls0 rest (haddr x (by simp)) hrest hs
    have htargets : ∀ call ∈ calls',
        ({ x with Topics := topics1 } : Repository).FullName ≠ call.owner ++ "/" ++ call.repo := by
      intro call hcall
      have hmem : call ∈ (updateLoop c0 rest).1 := by rw [hr]; exact hcall
      obtain ⟨r, hrmem, ho, hn⟩ := updateLoop_call_target rest c0 call hmem
      rw [ho, hn, ← haddr r (List.mem_cons_of_mem _ hrmem)]
      exact hdistinct.1 r hrmem
    rw [hcalls, applyCalls_append, happ, applyCalls_cons_of_no_target calls' _ rest htargets]
    intro s hsmem
    rcases List.mem_cons.1 hsmem with hhead | htail
    · subst hhead
      have hframe : c1.Repositories.lookup x.FullName = c0.Repositories.lookup x.FullName := by
        rw [(updateLoop_ok rest c0 c1 calls' hr).2 x.FullName]
        have hnone : rest.find? (fun s => decide (s.FullName = x.FullName)) = none := by
          rw [List.find?_eq_none]
          intro r hrmem
          simpa using hrest r hrmem
        rw [hnone]
        simp
      rw [getRepositoryStatus_congr c1 c0 _ _ hframe]
      exact hst
    · exact ih c0 calls' hdistinct.2 (fun r hr => haddr r (List.mem_cons_of_mem _ hr)) hr s htail

/-! ## The decision function -/

/-- C1: a full name that is not a key of the membership mapping (in particular any full name when
the mapping is the nil map) is classified STATUT_UNKNOW_REPOSITORY, which is 3, whatever the
topics are. -/
theorem status_unknown_of_absent (c : Configuration) (r : String) (topics : List String)
    (h : c.Repositories.lookup r = none) :
    getRepositoryStatus c r topics = STATUT_UNKNOW_REPOSITORY ∧
      STATUT_UNKNOW_REPOSITORY = 3 := by
  rw [getRepositoryStatus_eq, h]
  exact ⟨rfl, rfl⟩

theorem status_unknown_of_absent_witness :
    (Configuration.mk "" (.mk [("org/b", false)])).Repositories.lookup "org/a" = none ∧
      (getRepositoryStatus (Configuration.mk "" (.mk [("org/b", false)])) "org/a"
          ["x", "hacktoberfest"] = STATUT_UNKNOW_REPOSITORY ∧
        STATUT_UNKNOW_REPOSITORY = 3) :=
  ⟨by decide, status_unknown_of_absent _ "org/a" ["x", "hacktoberfest"] (by decide)⟩

/-- C2: the status is STATUT_TOPIC_SHOULD_BE_ADDED, which is 1, exactly when the full name is a
key of the membership mapping bound to true and the marker is not among the topics. -/
theorem status_added_iff (c : Configuration) (r : String) (topics : List String) :
    (getRepositoryStatus c r topics = STATUT_TOPIC_SHOULD_BE_ADDED ↔
        c.Repositories.lookup r = some true ∧ TAG ∉ topics) ∧
      STATUT_TOPIC_SHOULD_BE_ADDED = 1 := by
  refine ⟨?_, rfl⟩
  rw [getRepositoryStatus_eq, ← contains_eq_false_iff]
  cases c.Repositories.lookup r with
  | none => simp [STATUT_TOPIC_SHOULD_BE_ADDED]
  | some v =>
    cases v <;> cases contains topics TAG <;> simp [STATUT_TOPIC_SHOULD_BE_ADDED]

/-- C3: the status is STATUT_TOPIC_SHOULD_BE_REMOVED, which is 2, exactly when the full name is a
key of the membership mapping bound to false and the marker is among the topics. -/
theorem status_removed_iff (c : Configuration) (r : String) (topics : List String) :
    (getRepositoryStatus c r topics = STATUT_TOPIC_SHOULD_BE_REMOVED ↔
        c.Repositories.lookup r = some false ∧ TAG ∈ topics) ∧
      STATUT_TOPIC_SHOULD_BE_REMOVED = 2 := by
  refine ⟨?_, rfl⟩
  rw [getRepositoryStatus_eq, ← contains_iff]
  cases c.Repositories.lookup r with
  | none => simp [STATUT_TOPIC_SHOULD_BE_REMOVED]
  | some v =>
    cases v <;> cases contains topics TAG <;> simp [STATUT_TOPIC_SHOULD_BE_REMOVED]

/-- C4: when the full name is a key of the membership mapping and its boolean equals "the marker
is among the topics", the status is 0, a value that is none of the three named statuses. -/
theorem status_unchanged_of_agree (c : Configuration) (r : String) (topics : List String)
    (want : Bool) (hkey : c.Repositories.lookup r = some want)
    (hagree : want = true ↔ TAG ∈ topics) :
    getRepositoryStatus c r topics = 0 ∧
      (0 : Int) ≠ STATUT_TOPIC_SHOULD_BE_ADDED ∧
      (0 : Int) ≠ STATUT_TOPIC_SHOULD_BE_REMOVED ∧
      (0 : Int) ≠ STATUT_UNKNOW_REPOSITORY := by
  refine ⟨?_, by decide, by decide, by decide⟩
  rw [← contains_iff] at hagree
  rw [getRepositoryStatus_eq, hkey]
  cases want <;> cases hc : contains topics TAG <;> simp_all

theorem status_unchanged_of_agree_witness :
    ((Configuration.mk "" (.mk [("org/a", true)])).Repositories.lookup "org/a" = some true ∧
        (true = true ↔ TAG ∈ ["x", "hacktoberfest"])) ∧
      (getRepositoryStatus (Configuration.mk "" (.mk [("org/a", true)])) "org/a"
          ["x", "hacktoberfest"] = 0 ∧
        (0 : Int) ≠ STATUT_TOPIC_SHOULD_BE_ADDED ∧
        (0 : Int) ≠ STATUT_TOPIC_SHOULD_BE_REMOVED ∧
        (0 : Int) ≠ STATUT_UNKNOW_REPOSITORY) :=
  ⟨⟨by decide, by decide⟩,
    status_unchanged_of_agree _ "org/a" ["x", "hacktoberfest"] true (by decide) (by decide)⟩

/-! ## The calls issued by the update loop -/

/-- C5: in the loop of the update command, when the snapshot reached after the snapshots pre
(which issued calls1 and left the record c1) is classified STATUT_TOPIC_SHOULD_BE_REMOVED, the
loop issues for it exactly one call of ReplaceAllTopics, whose topics are the topics of the
snapshot filtered by t ≠ TAG (order kept, no marker left), leaves the record as it is and goes on
with the remaining snapshots. -/
theorem update_removed_call (c c1 : Configuration) (pre post : List Repository)
    (repo : Repository) (calls1 : List Call)
    (hpre : updateLoop c pre = (calls1, .ok c1))
    (hst : getRepositoryStatus c1 repo.FullName repo.Topics = STATUT_TOPIC_SHOULD_BE_REMOVED) :
    updateLoop c (pre ++ repo :: post) =
        (calls1 ++ ⟨repo.OwnerLogin, repo.Name, repo.Topics.filter (fun t => decide (t ≠ TAG))⟩ ::
            (updateLoop c1 post).1,
          (updateLoop c1 post).2) ∧
      TAG ∉ repo.Topics.filter (fun t => decide (t ≠ TAG)) := by
  constructor
  · have hstep : updateStep c1 repo =
        ([⟨repo.OwnerLogin, repo.Name, repo.Topics.filter (fun t => decide (t ≠ TAG))⟩],
          .ok c1) := by
      simp [updateStep, hst, removeTagLoop_eq, STATUT_TOPIC_SHOULD_BE_REMOVED,
        STATUT_TOPIC_SHOULD_BE_ADDED]
    rw [updateLoop_append, hpre]
    simp [updateLoop, hstep]
  · simp

theorem update_removed_call_witness :
    (updateLoop ⟨"", .mk [("org/a", false)]⟩ [] = ([], .ok ⟨"", .mk [("org/a", false)]⟩) ∧
        getRepositoryStatus ⟨"", .mk [("org/a", false)]⟩ "org/a" ["x", "hacktoberfest", "y"] =
          STATUT_TOPIC_SHOULD_BE_REMOVED) ∧
      (updateLoop ⟨"", .mk [("org/a", false)]⟩
            [⟨"org/a", "org", "a", ["x", "hacktoberfest", "y"]⟩] =
          ([⟨"org", "a", ["x", "y"]⟩], .ok ⟨"", .mk [("org/a", false)]⟩) ∧
        TAG ∉ ["x", "y"]) :=
  ⟨⟨rfl, by decide⟩,
    update_removed_call ⟨"", .mk [("org/a", false)]⟩ ⟨"", .mk [("org/a", false)]⟩ [] []
      ⟨"org/a", "org", "a", ["x", "hacktoberfest", "y"]⟩ [] rfl (by decide)⟩

/-- C6: in the loop of the update command, when the snapshot reached after the snapshots pre
(which issued calls1 and left the record c1) is classified STATUT_TOPIC_SHOULD_BE_ADDED, the loop
issues for it exactly one call of ReplaceAllTopics, whose topics are the topics of the snapshot
followed by TAG as last element, a list in which TAG occurs exactly once; the record is left as it
is and the loop goes on with the remaining snapshots. -/
theorem update_added_call (c c1 : Configuration) (pre post : List Repository)
    (repo : Repository) (calls1 : List Call)
    (hpre : updateLoop c pre = (calls1, .ok c1))
    (hst : getRepositoryStatus c1 repo.FullName repo.Topics = STATUT_TOPIC_SHOULD_BE_ADDED) :
    updateLoop c (pre ++ repo :: post) =
        (calls1 ++ ⟨repo.OwnerLogin, repo.Name, repo.Topics ++ [TAG]⟩ :: (updateLoop c1 post).1,
          (updateLoop c1 post).2) ∧
      (repo.Topics ++ [TAG]).getLast? = some TAG ∧
      (repo.Topics ++ [TAG]).count TAG = 1 := by
  refine ⟨?_, by simp, ?_⟩
  · have hstep : updateStep c1 repo =
        ([⟨repo.OwnerLogin, repo.Name, repo.Topics ++ [TAG]⟩], .ok c1) := by
      simp [updateStep, hst]
    rw [updateLoop_append, hpre]
    simp [updateLoop, hstep]
  · have hnot : TAG ∉ repo.Topics := not_mem_of_status_added c1 repo.FullName repo.Topics hst
    simp [List.count_append, List.count_eq_zero_of_not_mem hnot]

theorem update_added_call_witness :
    (updateLoop ⟨"", .mk [("org/a", true)]⟩ [] = ([], .ok ⟨"", .mk [("org/a", true)]⟩) ∧
        getRepositoryStatus ⟨"", .mk [("org/a", true)]⟩ "org/a" ["x"] =
          STATUT_TOPIC_SHOULD_BE_ADDED) ∧
      (updateLoop ⟨"", .mk [("org/a", true)]⟩ [⟨"org/a", "org", "a", ["x"]⟩] =
          ([⟨"org", "a", ["x", "hacktoberfest"]⟩], .ok ⟨"", .mk [("org/a", true)]⟩) ∧
        ["x", "hacktoberfest"].getLast? = some TAG ∧
        ["x", "hacktoberfest"].count TAG = 1) :=
  ⟨⟨rfl, by decide⟩,
    update_added_call ⟨"", .mk [("org/a", true)]⟩ ⟨"", .mk [("org/a", true)]⟩ [] []
      ⟨"org/a", "org", "a", ["x"]⟩ [] rfl (by decide)⟩

/-! ## The init command -/

/-- C7: when no record file exists and the remote lists repos, one snapshot per full name, the
init command starts from the empty record, reads (in vain) the record file, lists the
repositories, issues no call of ReplaceAllTopics and writes a record c1 with an empty access token
whose keys are exactly the listed full names, the full name of each listed snapshot being bound to
"the marker is among the topics of that snapshot". -/
theorem init_record (env : Env) (repos : List Repository)
    (hfile : fileExists env.fs CONFIG_FILE = .ok false)
    (hlist : env.list USER = .ok repos)
    (hdistinct : repos.Pairwise (fun a b => a.FullName ≠ b.FullName)) :
    ∃ c1 : Configuration,
      initCmdRun env =
          ⟨[.readFile CONFIG_FILE, .list USER, .writeFile CONFIG_FILE c1],
            saveConfiguration env c1⟩ ∧
        c1.AccessToken = "" ∧
        (∀ k, (c1.Repositories.lookup k).isSome = true ↔ ∃ s ∈ repos, s.FullName = k) ∧
        (∀ s ∈ repos, c1.Repositories.lookup s.FullName = some (contains s.Topics TAG)) := by
  obtain ⟨kvs1, hloop, hlook⟩ := initLoop_mk repos "" []
  have hload : ∃ e, loadConfiguration env.fs = .error e := by
    unfold fileExists at hfile
    unfold loadConfiguration
    cases hfs : env.fs CONFIG_FILE <;> simp_all
  obtain ⟨e, he⟩ := hload
  have hval : ∀ k, (GoMap.mk kvs1).lookup k =
      (repos.reverse.find? (fun s => decide (s.FullName = k))).map
        (fun s => contains s.Topics TAG) := by
    intro k
    rw [hlook k]
    simp [GoMap.lookup, lookupKV]
  refine ⟨⟨"", .mk kvs1⟩, ?_, rfl, ?_, ?_⟩
  · simp [initCmdRun, hfile, he, hlist, hloop]
  · intro k
    rw [hval k]
    simp
  · intro s hs
    rw [hval s.FullName]
    have hfind : repos.reverse.find? (fun r => decide (r.FullName = s.FullName)) = some s := by
      cases hf : repos.reverse.find? (fun r => decide (r.FullName = s.FullName)) with
      | none =>
        rw [List.find?_eq_none] at hf
        exact absurd (by simp) (hf s (by simpa using hs))
      | some r =>
        have hr : r ∈ repos := by simpa using List.mem_of_find?_eq_some hf
        have hname : r.FullName = s.FullName := by simpa using List.find?_some hf
        rw [eq_of_fullName_eq repos hdistinct r s hr hs hname]
    rw [hfind]
    rfl

theorem init_record_witness :
    (fileExists freshEnv.fs CONFIG_FILE = .ok false ∧
        freshEnv.list USER = .ok freshRemote ∧
        freshRemote.Pairwise (fun a b => a.FullName ≠ b.FullName)) ∧
      initCmdRun freshEnv =
        ⟨[.readFile CONFIG_FILE, .list USER,
            .writeFile CONFIG_FILE ⟨"", .mk [("org/b", false), ("org/a", true)]⟩],
          .ok ()⟩ ∧
      ∃ c1 : Configuration,
        initCmdRun freshEnv =
            ⟨[.readFile CONFIG_FILE, .list USER, .writeFile CONFIG_FILE c1],
              saveConfiguration freshEnv c1⟩ ∧
          c1.AccessToken = "" ∧
          (∀ k, (c1.Repositories.lookup k).isSome = true ↔ ∃ s ∈ freshRemote, s.FullName = k) ∧
          (∀ s ∈ freshRemote,
            c1.Repositories.lookup s.FullName = some (contains s.Topics TAG)) :=
  ⟨⟨rfl, rfl, by decide⟩, rfl, init_record freshEnv freshRemote rfl rfl (by decide)⟩

/-! ## The update command -/

/-- C10: when the record file does not exist, the update command panics with the message of the
missing configuration and has performed no effect at all: no read of the record file, no listing
of the remote, no call of ReplaceAllTopics and no write of the record file. -/
theorem update_aborts_without_config (env : Env) (h : env.fs CONFIG_FILE = .notExist) :
    rootCmdRun env =
      ⟨[], .error "Configuration file not exists. Run init command before."⟩ := by
  simp [rootCmdRun, fileExists, h]

theorem update_aborts_without_config_witness :
    freshEnv.fs CONFIG_FILE = .notExist ∧
      rootCmdRun freshEnv =
        ⟨[], .error "Configuration file not exists. Run init command before."⟩ :=
  ⟨rfl, update_aborts_without_config freshEnv rfl⟩

/-- The update command on a record whose map is allocated: the loop ends, the record written
keeps the access token and every binding of the loaded record, and binds each listed name that was
not a key to the marker state of the first listed snapshot carrying it. -/
theorem update_record_of_allocated (env : Env) (c : Configuration) (kvs : List (String × Bool))
    (repos : List Repository)
    (hfile : env.fs CONFIG_FILE = .regular (.ok c))
    (hm : c.Repositories = .mk kvs)
    (hlist : env.list USER = .ok repos) :
    ∃ calls c1, updateLoop c repos = (calls, .ok c1) ∧
      rootCmdRun env =
        ⟨[.readFile CONFIG_FILE, .list USER] ++ calls.map .replaceAllTopics ++
            [.writeFile CONFIG_FILE c1], saveConfiguration env c1⟩ ∧
      c1.AccessToken = c.AccessToken ∧
      ∀ k, c1.Repositories.lookup k =
        (c.Repositories.lookup k).or
          ((repos.find? (fun s => decide (s.FullName = k))).map
            (fun s => contains s.Topics TAG)) := by
  obtain ⟨calls, c1, hloop⟩ := updateLoop_mk repos c kvs hm
  obtain ⟨htok, hlook⟩ := updateLoop_ok repos c c1 calls hloop
  refine ⟨calls, c1, hloop, ?_, htok, hlook⟩
  simp [rootCmdRun, fileExists, loadConfiguration, hfile, hlist, hloop]

/-- In the loop of the update command, a snapshot classified STATUT_UNKNOW_REPOSITORY while the
map is allocated is adopted without any call of ReplaceAllTopics: the loop goes on with a record
c2 that differs from c1 only in binding the name to the marker state of the snapshot. -/
theorem update_adopted_no_call (c c1 : Configuration) (pre post : List Repository)
    (repo : Repository) (calls1 : List Call) (kvs : List (String × Bool))
    (hpre : updateLoop c pre = (calls1, .ok c1))
    (hm : c1.Repositories = .mk kvs)
    (hst : getRepositoryStatus c1 repo.FullName repo.Topics = STATUT_UNKNOW_REPOSITORY) :
    ∃ c2, updateLoop c (pre ++ repo :: post) =
        (calls1 ++ (updateLoop c2 post).1, (updateLoop c2 post).2) ∧
      c2.AccessToken = c1.AccessToken ∧
      ∀ k, c2.Repositories.lookup k =
        if repo.FullName = k then some (contains repo.Topics TAG)
        else c1.Repositories.lookup k := by
  obtain ⟨kvs2, hk⟩ := assign_mk kvs repo.FullName (contains repo.Topics TAG)
  rw [← hm] at hk
  have hstep : updateStep c1 repo = ([], .ok { c1 with Repositories := .mk kvs2 }) := by
    simp [updateStep, hst, hk, STATUT_TOPIC_SHOULD_BE_ADDED, STATUT_TOPIC_SHOULD_BE_REMOVED,
      STATUT_UNKNOW_REPOSITORY]
  refine ⟨{ c1 with Repositories := .mk kvs2 }, ?_, rfl, fun k => lookup_assign _ _ _ _ hk k⟩
  rw [updateLoop_append, hpre]
  simp [updateLoop, hstep]

/-- C9, the failing input: the record file holds an access token and no Repositories mapping, so
the loaded map is the nil map; the remote lists org/a.  The snapshot is classified unknown, the
assignment that should adopt it panics, and the run ends inside the loop, before the record is
written. -/
theorem update_panics_on_nil_map :
    rootCmdRun tokenOnlyEnv =
      ⟨[.readFile CONFIG_FILE, .list USER], .error "assignment to entry in nil map"⟩ :=
  rfl

/-! ## Two runs of the update command in a row -/

/-- C8: let a first run of the update command load the record c, list the remote, issue calls
and end by writing the record c1, where the listed snapshots have pairwise distinct full names and
each call takes effect on the snapshot it was issued for: the full name of a snapshot is its owner
login, a slash and its name, which is the address a call carries.  If the command is run again on
the record c1 and on the remote the calls left, then the second run classifies every snapshot 0
(unchanged), its loop issues no call and keeps the record, and the run as a whole performs no call
of ReplaceAllTopics and writes back the very record c1. -/
theorem update_idempotent (env1 env2 : Env) (c c1 : Configuration) (remote : List Repository)
    (calls : List Call)
    (hdistinct : remote.Pairwise (fun a b => a.FullName ≠ b.FullName))
    (haddr : ∀ r ∈ remote, r.FullName = r.OwnerLogin ++ "/" ++ r.Name)
    (hfile1 : env1.fs CONFIG_FILE = .regular (.ok c))
    (hlist1 : env1.list USER = .ok remote)
    (hrun1 : rootCmdRun env1 =
      ⟨[.readFile CONFIG_FILE, .list USER] ++ calls.map .replaceAllTopics ++
          [.writeFile CONFIG_FILE c1], .ok ()⟩)
    (hfile2 : env2.fs CONFIG_FILE = .regular (.ok c1))
    (hlist2 : env2.list USER = .ok (applyCalls remote calls)) :
    (∀ s ∈ applyCalls remote calls, getRepositoryStatus c1 s.FullName s.Topics = 0) ∧
      updateLoop c1 (applyCalls remote calls) = ([], .ok c1) ∧
      rootCmdRun env2 =
        ⟨[.readFile CONFIG_FILE, .list USER, .writeFile CONFIG_FILE c1],
          saveConfiguration env2 c1⟩ := by
  have hloop : updateLoop c remote = (calls, .ok c1) := by
    have h := hrun1
    simp only [rootCmdRun, fileExists, loadConfiguration, hfile1, hlist1] at h
    rcases hl : updateLoop c remote with ⟨calls0, e | c0⟩
    · rw [hl] at h
      simp only [Run.mk.injEq] at h
      exact absurd h.2 (by simp)
    · rw [hl] at h
      simp only [Run.mk.injEq, List.append_assoc, List.append_cancel_left_eq] at h
      obtain ⟨hmap, hw⟩ := List.append_inj' h.1 rfl
      have hinj : Function.Injective Event.replaceAllTopics := fun a b hab => by
        injection hab
      rw [hinj.list_map hmap]
      simp only [List.cons.injEq, Event.writeFile.injEq, and_true, true_and] at hw
      rw [hw]
  have hall := updateLoop_effect remote c c1 calls hdistinct haddr hloop
  have hsecond := updateLoop_of_unchanged (applyCalls remote calls) c1 hall
  refine ⟨hall, hsecond, ?_⟩
  simp [rootCmdRun, fileExists, loadConfiguration, hfile2, hlist2, hsecond]

theorem update_idempotent_witness :
    (driftedRemote.Pairwise (fun a b => a.FullName ≠ b.FullName) ∧
        (∀ r ∈ driftedRemote, r.FullName = r.OwnerLogin ++ "/" ++ r.Name) ∧
        driftedEnv.fs CONFIG_FILE = .regular (.ok driftedRecord) ∧
        driftedEnv.list USER = .ok driftedRemote ∧
        rootCmdRun driftedEnv =
          ⟨[.readFile CONFIG_FILE, .list USER] ++ driftedCalls.map .replaceAllTopics ++
              [.writeFile CONFIG_FILE settledRecord], .ok ()⟩ ∧
        settledEnv.fs CONFIG_FILE = .regular (.ok settledRecord) ∧
        settledEnv.list USER = .ok (applyCalls driftedRemote driftedCalls)) ∧
      ((∀ s ∈ applyCalls driftedRemote driftedCalls,
          getRepositoryStatus settledRecord s.FullName s.Topics = 0) ∧
        updateLoop settledRecord (applyCalls driftedRemote driftedCalls) =
          ([], .ok settledRecord) ∧
        rootCmdRun settledEnv =
          ⟨[.readFile CONFIG_FILE, .list USER, .writeFile CONFIG_FILE settledRecord],
            saveConfiguration settledEnv settledRecord⟩) :=
  ⟨⟨by decide, by decide, rfl, rfl, rfl, rfl, rfl⟩,
    update_idempotent driftedEnv settledEnv driftedRecord settledRecord driftedRemote
      driftedCalls (by decide) (by decide) rfl rfl rfl rfl rfl⟩

end Ghacktoberfest
